import Mathlib

/-!
Verification of the go-lprlib specification against a shallow embedding of the
repository's source code (RFC 1179 line-printer daemon and client).

The daemon side is embedded from `log.go` (the current revision of the
connection state machine): `addToFile`, the EOF handling of `RunConnection`,
`receiveControlFile` / `parseControlFileLine`, `receiveDataFile`, `operands`,
the external-ID sequencer and the finished-record publication.  The client
side is embedded from `lpr_send.go` (`SendFile`).  Byte strings are lists of
naturals, uint64 arithmetic is taken modulo 2^64 where the source performs
machine arithmetic, and fallible operations return `Except`.
-/

namespace LprLib

/-- The connection types of `log.go` (`ConnectionType` constants 0..5). -/
inductive ConnectionType
  | printAnyWaitingJobs
  | receivePrintJob
  | sendQueueStateShort
  | sendQueueStateLong
  | removeJobs
  | unknown
deriving DecidableEq

/-- The connection statuses of `log.go` (`ConnectionStatus`): `DaemonCommand`,
`JobSubCommand`, `End`, `Error`. -/
inductive ConnectionStatus
  | DaemonCommand
  | JobSubCommand
  | End
  | Error
deriving DecidableEq

/-- 2^64, the modulus of Go's uint64 arithmetic. -/
def uint64Mod : Nat := 2 ^ 64

/-- Embeds `addToFile` of `log.go`: given the connection's `Filesize`, its
`processedDataBytes` and the chunk `data` just read from the socket, returns
the bytes written to the output file, the end-reached flag and the updated
`processedDataBytes`.  The source returns early when the chunk is empty;
otherwise, when the chunk's last byte is 0 and the size condition holds, the
trailing NUL is cut away and the end flag is set; `processedDataBytes` is then
incremented by the length of the (possibly shortened) chunk, which is exactly
what is written to the file.  uint64 additions are taken mod 2^64. -/
def addToFile (filesize processed : Nat) (data : List Nat) :
    List Nat × Bool × Nat :=
  if data.length = 0 then ([], false, processed)
  else if data.getLast? = some 0 ∧
      (filesize = 0 ∨ filesize ≤ (processed + (data.length - 1)) % uint64Mod) then
    (data.dropLast, true, (processed + data.dropLast.length) % uint64Mod)
  else
    (data, false, (processed + data.length) % uint64Mod)

/-- Embeds the EOF/error branch of `RunConnection` in `log.go`: when
`ReadCommand` returns an error, the connection ends with status `End` when the
error is EOF and either both of the control and data files were received or
neither was; every other case ends with status `Error` (`end` is called with a
non-nil error). -/
def runConnectionReadErrorStatus
    (isEOF dataFileReceived controlFileReceived : Bool) : ConnectionStatus :=
  if isEOF && ((dataFileReceived && controlFileReceived) ||
      (!dataFileReceived && !controlFileReceived))
  then ConnectionStatus.End else ConnectionStatus.Error

/-- The whitespace class of `asciiSpace` in `log.go`: SP, TAB, VT, FF. -/
def wsByte (b : Nat) : Bool := b == 32 || b == 9 || b == 11 || b == 12

/-- The line-feed byte test used by the control-file reader. -/
def nlByte (b : Nat) : Bool := b == 10

/-- Reference splitter used in theorem statements: splits a byte string at
every byte satisfying `p`, keeping empty fields (as Go's repeated-separator
behaviour does).  Always returns at least one (possibly empty) field. -/
def splitBytes (p : Nat → Bool) : List Nat → List (List Nat)
  | [] => [[]]
  | b :: rest =>
    match splitBytes p rest with
    | [] => [[]]
    | f :: fs => if p b then [] :: f :: fs else (b :: f) :: fs

/-- Prepends `x` to the first field of a field list (used to state invariants
about partially accumulated fields). -/
def prependHead (x : List Nat) : List (List Nat) → List (List Nat)
  | [] => [x]
  | f :: fs => (x ++ f) :: fs

/-- Embeds `operands` of `log.go` (the current revision, lines 1123-1142):
`opers` is the list of completed fields, `oper` the field being accumulated.
A whitespace byte at position `i` either completes the current field, or, when
`max-1` fields are already complete, ends the split with the final field
`string(oper)+string(data[i:])` (the accumulated bytes plus the remaining
input from the whitespace byte on, verbatim).  The guard
`opers.length + 1 = max` renders Go's `len(opers) == max-1` (equal for every
`max ≥ 1`, and both unsatisfiable for `max = 0`). -/
def operandsGo (max : Nat) :
    List (List Nat) → List Nat → List Nat → List (List Nat)
  | opers, oper, [] => opers ++ [oper]
  | opers, oper, b :: rest =>
    if wsByte b then
      if opers.length + 1 = max then opers ++ [oper ++ b :: rest]
      else operandsGo max (opers ++ [oper]) [] rest
    else operandsGo max opers (oper ++ [b]) rest

/-- `operands(data, max)` of `log.go`. -/
def operands (data : List Nat) (max : Nat) : List (List Nat) :=
  operandsGo max [] [] data

/-- Reference function for the capped final field of `operands`: the verbatim
remainder of the input once `n` further whitespace-terminated fields have been
completed, starting from the accumulated bytes `oper`.  It is only meaningful
when the input still contains at least `n + 1` separator bytes. -/
def caprem : List Nat → Nat → List Nat → List Nat
  | oper, _, [] => oper
  | oper, 0, b :: rest =>
    if wsByte b then oper ++ b :: rest else caprem (oper ++ [b]) 0 rest
  | oper, n + 1, b :: rest =>
    if wsByte b then caprem [] n rest else caprem (oper ++ [b]) (n + 1) rest

/-- Follows the spec's words, not the source (refinement reference for the
operands claim): splitting on whitespace while collapsing consecutive
whitespace bytes into a single separator yields only the non-empty
whitespace-delimited tokens. -/
def spec_collapsedSplit (data : List Nat) : List (List Nat) :=
  (splitBytes wsByte data).filter (fun f => !f.isEmpty)

/-- Error outcomes of control-file ingestion in `log.go`.
`emptyLineOutOfBounds` models the Go runtime panic raised by
`parseControlFileLine` when it evaluates `line[0]` on an empty line (the
switch scrutinee is indexed unconditionally). -/
inductive CtrlError
  | readFailed
  | notNulTerminated
  | emptyLineOutOfBounds
  | decodeFailed
  | badIndentCount
  | unknownTag
  | garbageAtEnd
deriving DecidableEq

/-- Embeds Go's `strconv.ParseInt(s, 10, 64)` as used for the control file's
`I` tag: an optional sign followed by at least one decimal digit, with the
value required to fit in int64; anything else is a syntax or range error. -/
def goParseInt64 (s : List Nat) : Option Int :=
  let signDigits : Int × List Nat :=
    match s with
    | 43 :: rest => (1, rest)
    | 45 :: rest => (-1, rest)
    | _ => (1, s)
  let sign := signDigits.1
  let digits := signDigits.2
  if digits.isEmpty then none
  else if digits.all (fun d => 48 ≤ d && d ≤ 57) then
    let v : Nat := digits.foldl (fun acc d => acc * 10 + (d - 48)) 0
    let iv : Int := sign * (v : Int)
    if -(2 ^ 63) ≤ iv ∧ iv ≤ 2 ^ 63 - 1 then some iv else none
  else none

/-- Tags whose value is decoded through `ensureUTF8` and stored as a string:
`C`, `H`, `J`, `N`, `P`, `T`. -/
def stringValueTags : List Nat := [67, 72, 74, 78, 80, 84]

/-- Tags that are recognized but ignored by `parseControlFileLine`:
`L`, `M`, `S`, `U`, `W`, `1`..`4`, `c`, `d`, `f`, `g`, `l`, `n`, `o`, `r`,
`t`, `v` and the NUL byte. -/
def ignoredTags : List Nat :=
  [76, 77, 83, 85, 87, 49, 50, 51, 52, 99, 100, 102, 103, 108, 110, 111,
   114, 116, 118, 0]

/-- Embeds `parseControlFileLine` of `log.go`.  `decodeOk` abstracts whether
`ensureUTF8` succeeds on a value (with the default windows-1252 fallback it
always does; the decoder is configurable, so it is kept as a parameter).  The
Go switch indexes `line[0]` unconditionally, so the empty line is mapped to
the out-of-bounds marker.  Tag `I` parses the value as a decimal integer, tag
`p` stores the raw bytes without decoding, unknown tags fail. -/
def parseControlFileLine (decodeOk : List Nat → Bool) (line : List Nat) :
    Except CtrlError Unit :=
  match line with
  | [] => Except.error CtrlError.emptyLineOutOfBounds
  | t :: rest =>
    if stringValueTags.contains t then
      if decodeOk rest then Except.ok () else Except.error CtrlError.decodeFailed
    else if t == 73 then
      match goParseInt64 rest with
      | some _ => Except.ok ()
      | none => Except.error CtrlError.badIndentCount
    else if t == 112 then Except.ok ()
    else if ignoredTags.contains t then Except.ok ()
    else Except.error CtrlError.unknownTag

/-- Embeds the line-splitting loop of `receiveControlFile`: iterate over the
payload bytes, dispatching the accumulated `line` at every LF; after the loop
a non-empty residual line is the "garbage at end of control file" error.  On
success the list of dispatched lines is returned, in dispatch order. -/
def receiveControlFileLoop (decodeOk : List Nat → Bool) :
    List Nat → List Nat → Except CtrlError (List (List Nat))
  | line, [] =>
    if line.length > 0 then Except.error CtrlError.garbageAtEnd
    else Except.ok []
  | line, b :: rest =>
    if nlByte b then
      match parseControlFileLine decodeOk line with
      | Except.error e => Except.error e
      | Except.ok () =>
        match receiveControlFileLoop decodeOk [] rest with
        | Except.error e => Except.error e
        | Except.ok us => Except.ok (line :: us)
    else receiveControlFileLoop decodeOk (line ++ [b]) rest

/-- Embeds `receiveControlFile` of `log.go` with declared size `size`: a
blocking full read of exactly `size + 1` bytes from the connection (modelled
as the prefix of the byte stream `input`; a stream shorter than `size + 1`
makes `io.ReadFull` fail), a check that the last of those bytes is 0x00, and
the line-splitting loop over the first `size` bytes. -/
def receiveControlFile (decodeOk : List Nat → Bool) (size : Nat)
    (input : List Nat) : Except CtrlError (List (List Nat)) :=
  if input.length < size + 1 then Except.error CtrlError.readFailed
  else
    match (input.take (size + 1)).getLast? with
    | none => Except.error CtrlError.readFailed
    | some lastByte =>
      if lastByte ≠ 0 then Except.error CtrlError.notNulTerminated
      else receiveControlFileLoop decodeOk [] (input.take (size + 1)).dropLast

/-- The mutable per-connection state touched by `receiveDataFile`: the
declared `Filesize`, `processedDataBytes`, and the bytes written to the
output file so far. -/
structure DataFileState where
  filesize : Nat
  processed : Nat
  written : List Nat
deriving DecidableEq

/-- One socket read in the data-file loop: a successful read of a chunk, a
read that returned `io.EOF`, or a read that returned any other error. -/
inductive ReadEvent
  | chunk (data : List Nat)
  | eofRead
  | errRead
deriving DecidableEq

/-- Outcome of the data-file loop on a finite trace of reads: `done` models a
successful return, `failed` an error return, `pending` a run that is still
blocked in the next read when the trace ends. -/
inductive DataFileOutcome
  | done (s : DataFileState)
  | failed (s : DataFileState)
  | pending (s : DataFileState)
deriving DecidableEq

/-- The state carried by each outcome. -/
def DataFileOutcome.state : DataFileOutcome → DataFileState
  | .done s => s
  | .failed s => s
  | .pending s => s

/-- 2 GiB, the literal `2*1024*1024*1024` of `receiveDataFile`. -/
def twoGiB : Nat := 2 * 1024 * 1024 * 1024

/-- Embeds the read loop of `receiveDataFile` in `log.go`: each successful
read hands its chunk to `addToFile` (which updates `processedDataBytes`,
appends to the output file, and reports end-reached); a read error that is
`io.EOF` ends the transfer successfully iff the declared size is 0 or greater
than 2 GiB, and every other read error fails the transfer. -/
def receiveDataFileLoop : DataFileState → List ReadEvent → DataFileOutcome
  | s, [] => DataFileOutcome.pending s
  | s, ReadEvent.chunk d :: rest =>
    let r := addToFile s.filesize s.processed d
    let s' : DataFileState := ⟨s.filesize, r.2.2, s.written ++ r.1⟩
    if r.2.1 then DataFileOutcome.done s'
    else receiveDataFileLoop s' rest
  | s, ReadEvent.eofRead :: _ =>
    if s.filesize = 0 ∨ twoGiB < s.filesize then DataFileOutcome.done s
    else DataFileOutcome.failed s
  | s, ReadEvent.errRead :: _ => DataFileOutcome.failed s

/-- Embeds `receiveDataFile` of `log.go`: `Filesize` is set to the declared
size (the current revision performs no clamping), `processedDataBytes` is
reset to 0, and the read loop runs over the trace of socket reads. -/
def receiveDataFile (declared : Nat) (events : List ReadEvent) :
    DataFileOutcome :=
  receiveDataFileLoop ⟨declared, 0, []⟩ events

/-- Embeds the streaming loop of `SendFile` in `lpr_send.go`, as a function
from the input file's contents to the bytes written to the socket for the
data payload.  A read of a regular file returns `min maxSize remaining` bytes
and, at the exact end, `(0, io.EOF)`, which breaks the loop.  After a read of
`rsize` bytes the transmit length is `rsize`, and only `if size < lpr.MaxSize`
does the code place a 0x00 byte behind the data and grow the transmit by one,
so only a final chunk strictly shorter than `maxSize` carries the terminating
NUL.  The fuel argument (the content length) bounds the iteration count; it
never runs out for `maxSize ≥ 1`, and `maxSize = 0` (excluded by `Init`,
which forces the 16 KiB default) would make the Go loop spin forever. -/
def sendFileDataFuel (maxSize : Nat) : Nat → List Nat → List Nat
  | 0, _ => []
  | _, [] => []
  | fuel + 1, content =>
    (if (content.take maxSize).length < maxSize
     then content.take maxSize ++ [0]
     else content.take maxSize)
      ++ sendFileDataFuel maxSize fuel (content.drop maxSize)

/-- The data bytes `SendFile` writes to the socket for a file with the given
contents. -/
def sendFileData (maxSize : Nat) (content : List Nat) : List Nat :=
  sendFileDataFuel maxSize content.length content

/-- Embeds the size guard and data streaming of `SendFile` in `lpr_send.go`:
a reported file size `≤ 0` fails before anything is sent; otherwise the data
payload of `sendFileData` is transmitted (after the `\x03<size> dfA000...`
announcement, which carries exactly `fileSize`). -/
def sendFile (maxSize : Nat) (fileSize : Int) (content : List Nat) :
    Except Unit (List Nat) :=
  if fileSize ≤ 0 then Except.error ()
  else Except.ok (sendFileData maxSize content)

/-- The characters of the substring the timeout contract promises. -/
def timeoutSubstr : List Char := "timeout".toList

/-- The error message produced by a deadline miss in the modelled client (a
`net` I/O timeout error string). -/
def timeoutErrorMessage : List Char := "read tcp: i/o timeout".toList

/-- Substring test on character lists (contiguous occurrence). -/
def hasSubstring (pat : List Char) : List Char → Bool
  | [] => pat.isEmpty
  | c :: rest => pat.isPrefixOf (c :: rest) || hasSubstring pat rest

/-- Modelled from the spec: the released `LprSend` client used by this
repository's tests (the revision with the `Timeout` field, the six-argument
`Init` and the no-argument `SendConfiguration`) is not among the source
files; only older revisions without deadlines are.  Per the spec, before
every socket read and write performed by `SendConfiguration` and `SendFile`
the client calls `SetDeadline(now + timeout)`, and an operation that has not
completed by that deadline fails with an error whose message contains the
substring "timeout".  `runClientOp` models one such read or write: `now` is
the clock when the operation is issued and the deadline is set, `duration`
the time the operation takes; it succeeds, returning the advanced clock, iff
it meets the deadline. -/
def runClientOp (timeout now duration : Nat) : Except (List Char) Nat :=
  if now + timeout < now + duration then Except.error timeoutErrorMessage
  else Except.ok (now + duration)

/-- Modelled from the spec: the sequence of socket reads and writes performed
by `SendConfiguration` followed by `SendFile` (command writes, ACK reads,
chunk writes), each entry of `durations` being the time one operation takes,
in order.  Each operation runs under its own fresh deadline and the first
deadline miss aborts the run with the timeout error. -/
def runClientOps (timeout : Nat) : Nat → List Nat → Except (List Char) Nat
  | now, [] => Except.ok now
  | now, d :: rest =>
    match runClientOp timeout now d with
    | Except.error e => Except.error e
    | Except.ok t => runClientOps timeout t rest

/-- Events of the external-ID sequencer task (`externalIDGenerator` in
`log.go`): receiving a connection's type from its `typeChan`, and the start
and finish of a synchronous `GetExternalID()` callback invocation. -/
inductive GenEvent
  | recvType (idx : Nat) (t : ConnectionType)
  | callbackStart (idx : Nat)
  | callbackEnd (idx : Nat)
deriving DecidableEq

/-- Whether an event is part of a callback invocation. -/
def GenEvent.isCallback : GenEvent → Bool
  | .callbackStart _ => true
  | .callbackEnd _ => true
  | _ => false

/-- Embeds the external-ID sequencer of `log.go`: `LprConnection.Init` (run
by the single accept loop) sends each connection on the buffered
`connections` channel before its state-machine task starts, so the channel
holds the connections in accept order; `externalIDGenerator` is the single
task draining that channel in FIFO order, and for each connection it first
receives the connection type from `typeChan` and then, only for
`ReceivePrintJob` with a callback installed, synchronously invokes
`GetExternalID()`.  `types` lists, in accept order, the value each `typeChan`
receive yields (a channel closed without a published type yields the zero
value `printAnyWaitingJobs`); `idx` numbers the connections in accept
order. -/
def externalIDGeneratorTrace (hasCallback : Bool) :
    Nat → List ConnectionType → List GenEvent
  | _, [] => []
  | idx, t :: rest =>
    GenEvent.recvType idx t ::
      ((if t == ConnectionType.receivePrintJob && hasCallback then
          [GenEvent.callbackStart idx, GenEvent.callbackEnd idx]
        else [])
        ++ externalIDGeneratorTrace hasCallback (idx + 1) rest)

/-- Embeds `generateExternalID` of `log.go`: the value sent on the
connection's `externalIDChan`, or `none` when the channel is closed without a
value (the non-print-job early return).  `getExternalID` is `some v` when a
callback is installed and returns `v`, `none` when no callback is
installed. -/
def generateExternalIDValue (getExternalID : Option Nat)
    (t : ConnectionType) : Option Nat :=
  if t ≠ ConnectionType.receivePrintJob then none
  else some (match getExternalID with | none => 0 | some v => v)

/-- Receiving from `externalIDChan` after the generator is done: a buffered
value is delivered, a closed empty channel yields uint64's zero value. -/
def resolveExternalID (sent : Option Nat) : Nat := sent.getD 0

/-- The part of a published connection record that the external-ID claims are
about. -/
structure FinishedRecord where
  externalID : Nat
deriving DecidableEq

/-- The record `RunConnection`'s deferred block publishes on
`finishedConns`. -/
def publishedRecord (getExternalID : Option Nat) (t : ConnectionType) :
    FinishedRecord :=
  ⟨resolveExternalID (generateExternalIDValue getExternalID t)⟩

/-- The two ordered steps of `RunConnection`'s deferred block that matter for
publication: assigning `lpr.ExternalID` from `externalIDChan`, then sending
the record on `finishedConns`. -/
inductive FinishEvent
  | resolveID (v : Nat)
  | publish (r : FinishedRecord)
deriving DecidableEq

/-- Embeds the deferred block of `RunConnection` in `log.go`: after
`typeChan` is closed, the external ID is received (resolved) first and the
record is sent on the finished-connections channel only afterwards. -/
def runConnectionFinish (getExternalID : Option Nat) (t : ConnectionType) :
    List FinishEvent :=
  let v := resolveExternalID (generateExternalIDValue getExternalID t)
  [FinishEvent.resolveID v, FinishEvent.publish ⟨v⟩]

/-! ### Helper lemmas -/

theorem splitBytes_ne_nil (p : Nat → Bool) (l : List Nat) :
    splitBytes p l ≠ [] := by
  cases l with
  | nil => simp [splitBytes]
  | cons b rest =>
    simp only [splitBytes]
    rcases h : splitBytes p rest with _ | ⟨f, fs⟩
    · simp
    · by_cases hb : p b <;> simp [hb]

theorem prependHead_nil (l : List (List Nat)) (h : l ≠ []) :
    prependHead [] l = l := by
  cases l with
  | nil => exact absurd rfl h
  | cons f fs => simp [prependHead]

theorem prependHead_length (x : List Nat) (l : List (List Nat)) (h : l ≠ []) :
    (prependHead x l).length = l.length := by
  cases l with
  | nil => exact absurd rfl h
  | cons f fs => simp [prependHead]

theorem addToFile_concat (filesize processed y : Nat) (ys : List Nat) :
    addToFile filesize processed (ys ++ [y]) =
      if y = 0 ∧ (filesize = 0 ∨ filesize ≤ (processed + ys.length) % uint64Mod)
      then (ys, true, (processed + ys.length) % uint64Mod)
      else (ys ++ [y], false, (processed + (ys.length + 1)) % uint64Mod) := by
  simp only [addToFile, List.length_append, List.length_cons, List.length_nil,
    Nat.zero_add, List.getLast?_concat, List.dropLast_concat, Nat.add_sub_cancel,
    Option.some.injEq]
  rw [if_neg (by omega)]

/-! ### Theorems about the claims -/

/-- C1: for every chunk handed to `addToFile`, if the chunk's last byte is
0x00 and either the declared filesize is 0 or `processedBytes` plus the chunk
length minus one is at least the filesize, exactly the trailing NUL is
stripped, the remaining bytes are written and end-reached is signalled;
otherwise all chunk bytes are written and reception continues; in both cases
`processedBytes` grows by exactly the number of bytes written.  (The bound
keeps the uint64 counter from wrapping, as in any real run.) -/
theorem addToFile_spec (filesize processed : Nat) (data : List Nat)
    (hbound : processed + data.length < uint64Mod) :
    ((addToFile filesize processed data).2.2 =
        processed + (addToFile filesize processed data).1.length) ∧
    (data.getLast? = some 0 →
      (filesize = 0 ∨ filesize ≤ processed + (data.length - 1)) →
        (addToFile filesize processed data).1 = data.dropLast ∧
        (addToFile filesize processed data).2.1 = true) ∧
    ((data.getLast? = some 0 →
        ¬(filesize = 0 ∨ filesize ≤ processed + (data.length - 1))) →
        (addToFile filesize processed data).1 = data ∧
        (addToFile filesize processed data).2.1 = false) := by
  rcases List.eq_nil_or_concat data with rfl | ⟨ys, y, hd⟩
  · refine ⟨by simp [addToFile], by simp, by simp [addToFile]⟩
  · rw [List.concat_eq_append] at hd
    subst hd
    rw [List.length_append, List.length_cons, List.length_nil, Nat.zero_add]
      at hbound
    have hmod : (processed + ys.length) % uint64Mod = processed + ys.length :=
      Nat.mod_eq_of_lt (by omega)
    have hmod2 : (processed + (ys.length + 1)) % uint64Mod =
        processed + (ys.length + 1) := Nat.mod_eq_of_lt (by omega)
    have hlast : (ys ++ [y]).getLast? = some y := List.getLast?_concat ys
    have hsub : (ys ++ [y]).length - 1 = ys.length := by simp
    rw [addToFile_concat, hmod]
    by_cases hc : y = 0 ∧ (filesize = 0 ∨ filesize ≤ processed + ys.length)
    · rw [if_pos hc]
      refine ⟨by simp, ?_, ?_⟩
      · intro _ _
        exact ⟨by simp, rfl⟩
      · intro hcontra
        rw [hlast, hsub] at hcontra
        exact absurd hc.2 (hcontra (by rw [hc.1]))
    · rw [if_neg hc]
      refine ⟨?_, ?_, ?_⟩
      · rw [hmod2]
        simp
      · intro h1 h2
        rw [hlast] at h1
        rw [hsub] at h2
        exact absurd ⟨Option.some.inj h1, h2⟩ hc
      · intro _
        exact ⟨rfl, rfl⟩

/-- Witness for C1 at a concrete chunk: filesize 3, two bytes already
processed, chunk `[7, 0]`; the trailing NUL is stripped, the byte 7 is
written, end is signalled and the counter advances to 3. -/
theorem addToFile_spec_witness :
    (addToFile 3 2 [7, 0]).1 = [7] ∧ (addToFile 3 2 [7, 0]).2.1 = true ∧
      (addToFile 3 2 [7, 0]).2.2 = 3 := by
  have h := addToFile_spec 3 2 [7, 0] (by decide)
  obtain ⟨hw, he⟩ := h.2.1 rfl (by decide)
  exact ⟨hw.trans (by decide), he, by rw [h.1, hw]; decide⟩

/-- C2: when `ReadCommand` yields EOF, the connection status becomes `End`
iff both or neither of the control and data files were received, and `Error`
iff exactly one of the two was received. -/
theorem runConnection_eof_status :
    ∀ dataFileReceived controlFileReceived : Bool,
      (runConnectionReadErrorStatus true dataFileReceived controlFileReceived =
          ConnectionStatus.End ↔ dataFileReceived = controlFileReceived) ∧
      (runConnectionReadErrorStatus true dataFileReceived controlFileReceived =
          ConnectionStatus.Error ↔ dataFileReceived ≠ controlFileReceived) := by
  decide

/-- C4 (counterexample): the claim says `operands` collapses consecutive
whitespace bytes into a single separator.  On the input `a<SP><SP>b` with
`max = 3` the collapsing split is `[[97], [98]]`, but `operands` emits the
empty field between the two whitespace bytes: each whitespace byte terminates
a field, none is collapsed. -/
theorem operands_does_not_collapse :
    operands [97, 32, 32, 98] 3 = [[97], [], [98]] ∧
    spec_collapsedSplit [97, 32, 32, 98] = [[97], [98]] ∧
    operands [97, 32, 32, 98] 3 ≠ spec_collapsedSplit [97, 32, 32, 98] := by
  decide

/-- C6: the claim says empty control-file lines (consecutive LFs, or a
leading LF) are skipped and ingestion completes without error and without an
out-of-bounds access on the line's first byte.  The code instead hands the
empty line to `parseControlFileLine`, whose switch evaluates `line[0]`
unconditionally: an out-of-bounds index (a Go runtime panic).  Evaluating the
embedding on a control file of declared size 1 whose payload is a single LF
(bytes 0x0A 0x00 on the wire) hits exactly that access. -/
theorem receiveControlFile_empty_line_oob :
    receiveControlFile (fun _ => true) 1 [10, 0] =
      Except.error CtrlError.emptyLineOutOfBounds := rfl

/-- C8: the claim says `SendFile` sends exactly one terminating NUL after the
final chunk for every input file, including files whose length is an exact
multiple of `MaxSize`.  The code appends the NUL only inside
`if size < lpr.MaxSize`, so a file of exactly `MaxSize` bytes (here 4 and 4)
is streamed without any terminating NUL; a shorter final chunk does get
it. -/
theorem sendFile_exact_multiple_no_nul :
    sendFile 4 4 [1, 2, 3, 4] = Except.ok [1, 2, 3, 4] ∧
    (0 ∈ sendFileData 4 [1, 2, 3, 4] → False) ∧
    sendFileData 4 [1, 2, 3] = [1, 2, 3, 0] ∧
    sendFile 4 0 [] = Except.error () :=
  ⟨rfl, by decide, rfl, rfl⟩

/-- C7 (modelled from the spec, see `runClientOp`): every socket operation of
the client runs under the deadline `now + timeout` — a run that succeeds did
so with every operation within its deadline — and whenever some operation
exceeds the timeout the run fails with an error whose message contains the
substring "timeout". -/
theorem lprSend_timeout_spec (timeout now : Nat) (durations : List Nat) :
    (∀ t, runClientOps timeout now durations = Except.ok t →
        ∀ d ∈ durations, d ≤ timeout) ∧
    ((∃ d ∈ durations, timeout < d) →
        ∃ e, runClientOps timeout now durations = Except.error e ∧
          hasSubstring timeoutSubstr e = true) := by
  induction durations generalizing now with
  | nil =>
    refine ⟨fun t _ d hd => absurd hd (List.not_mem_nil d), ?_⟩
    rintro ⟨d, hd, _⟩
    exact absurd hd (List.not_mem_nil d)
  | cons d rest ih =>
    constructor
    · intro t hok e he
      rw [runClientOps, runClientOp] at hok
      by_cases hd : now + timeout < now + d
      · rw [if_pos hd] at hok
        exact absurd hok (by simp)
      · rw [if_neg hd] at hok
        rcases List.mem_cons.mp he with rfl | he'
        · omega
        · exact (ih (now + d)).1 t hok e he'
    · rintro ⟨e, he, hlt⟩
      rw [runClientOps, runClientOp]
      by_cases hd : now + timeout < now + d
      · rw [if_pos hd]
        exact ⟨timeoutErrorMessage, rfl, by decide⟩
      · rw [if_neg hd]
        rcases List.mem_cons.mp he with rfl | he'
        · omega
        · exact (ih (now + d)).2 ⟨e, he', hlt⟩

/-- Witness for C7: with `timeout = 0` the single operation of duration 5
misses its deadline and the run fails with the timeout message. -/
theorem lprSend_timeout_spec_witness :
    runClientOps 0 0 [5] = Except.error timeoutErrorMessage ∧
    hasSubstring timeoutSubstr timeoutErrorMessage = true := by
  obtain ⟨e, he, hs⟩ := (lprSend_timeout_spec 0 0 [5]).2 ⟨5, by decide, by decide⟩
  have hcomp : runClientOps 0 0 [5] = Except.error timeoutErrorMessage := rfl
  have hee : e = timeoutErrorMessage := Except.error.inj (he.symm.trans hcomp)
  exact ⟨hcomp, hee ▸ hs⟩

/-- C9: the external-ID sequencer consumes the accept-ordered arrivals queue
as a single task, so its `GetExternalID` invocations are exactly one
start/finish pair per accepted `ReceivePrintJob` connection, in accept order:
if connection A is accepted before B, A's invocation happens before B's, and
each invocation finishes before the next one starts (never two in
flight). -/
theorem externalID_callback_order (hasCallback : Bool)
    (types : List ConnectionType) :
    (externalIDGeneratorTrace hasCallback 0 types).filter GenEvent.isCallback =
      ((types.enumFrom 0).filter
          (fun p => p.2 == ConnectionType.receivePrintJob && hasCallback)).flatMap
        (fun p => [GenEvent.callbackStart p.1, GenEvent.callbackEnd p.1]) := by
  suffices h : ∀ idx,
      (externalIDGeneratorTrace hasCallback idx types).filter GenEvent.isCallback =
        ((types.enumFrom idx).filter
            (fun p => p.2 == ConnectionType.receivePrintJob && hasCallback)).flatMap
          (fun p => [GenEvent.callbackStart p.1, GenEvent.callbackEnd p.1]) from
    h 0
  induction types with
  | nil => intro idx; simp [externalIDGeneratorTrace, List.enumFrom]
  | cons t rest ih =>
    intro idx
    rw [externalIDGeneratorTrace, List.enumFrom]
    rw [List.filter_cons, List.filter_append]
    by_cases hc : (t == ConnectionType.receivePrintJob && hasCallback) = true
    · rw [if_pos hc]
      simp only [GenEvent.isCallback, List.filter_cons, List.filter_nil,
        List.flatMap_cons, hc]
      simp [ih (idx + 1), GenEvent.isCallback]
    · rw [if_neg hc]
      simp only [Bool.not_eq_true] at hc
      simp [GenEvent.isCallback, List.filter_cons, hc, ih (idx + 1)]

/-- C10: the record published on the finished-connections stream carries an
external ID resolved before publication; the ID is 0 whenever the connection
type is not `ReceivePrintJob` or no callback is installed, and is the
callback's return value when the type is `ReceivePrintJob` and a callback is
installed. -/
theorem externalID_resolution (getExternalID : Option Nat)
    (t : ConnectionType) :
    runConnectionFinish getExternalID t =
      [FinishEvent.resolveID (publishedRecord getExternalID t).externalID,
       FinishEvent.publish (publishedRecord getExternalID t)] ∧
    (t ≠ ConnectionType.receivePrintJob →
        (publishedRecord getExternalID t).externalID = 0) ∧
    (getExternalID = none →
        (publishedRecord getExternalID t).externalID = 0) ∧
    (∀ v, t = ConnectionType.receivePrintJob → getExternalID = some v →
        (publishedRecord getExternalID t).externalID = v) := by
  refine ⟨rfl, ?_, ?_, ?_⟩
  · intro ht
    simp [publishedRecord, generateExternalIDValue, resolveExternalID, ht]
  · intro hcb
    subst hcb
    by_cases ht : t = ConnectionType.receivePrintJob <;>
      simp [publishedRecord, generateExternalIDValue, resolveExternalID, ht]
  · intro v ht hcb
    subst ht
    subst hcb
    simp [publishedRecord, generateExternalIDValue, resolveExternalID]

/-- Witness for C10: type `ReceivePrintJob` with an installed callback
returning 7 publishes external ID 7. -/
theorem externalID_resolution_witness :
    (publishedRecord (some 7) ConnectionType.receivePrintJob).externalID = 7 :=
  (externalID_resolution (some 7) ConnectionType.receivePrintJob).2.2.2 7
    rfl rfl

theorem operandsGo_eq (max : Nat) :
    ∀ (data : List Nat) (opers : List (List Nat)) (oper : List Nat) (n : Nat),
      opers.length + n + 1 = max →
      operandsGo max opers oper data =
        (if (splitBytes wsByte data).length ≤ n + 1 then
          opers ++ prependHead oper (splitBytes wsByte data)
        else
          opers ++ (prependHead oper (splitBytes wsByte data)).take n
            ++ [caprem oper n data]) := by
  intro data
  induction data with
  | nil =>
    intro opers oper n h
    simp [operandsGo, splitBytes, prependHead]
  | cons b rest ih =>
    intro opers oper n h
    rcases hsp : splitBytes wsByte rest with _ | ⟨f, fs⟩
    · exact absurd hsp (splitBytes_ne_nil _ _)
    by_cases hw : wsByte b
    · have hspc : splitBytes wsByte (b :: rest) = [] :: f :: fs := by
        rw [splitBytes, hsp]
        exact if_pos hw
      rw [operandsGo, if_pos hw, hspc]
      cases n with
      | zero =>
        rw [if_pos (by omega : opers.length + 1 = max)]
        have hlen2 : ¬(([] : List Nat) :: f :: fs).length ≤ 0 + 1 := by
          simp
        rw [if_neg hlen2]
        have hcap : caprem oper 0 (b :: rest) = oper ++ b :: rest := by
          simp [caprem, hw]
        rw [hcap, List.take_zero]
        simp
      | succ m =>
        rw [if_neg (by omega : ¬opers.length + 1 = max)]
        rw [ih (opers ++ [oper]) [] m (by simp; omega)]
        rw [hsp, prependHead_nil _ (by simp)]
        have hlen : (([] : List Nat) :: f :: fs).length ≤ m + 1 + 1 ↔
            (f :: fs).length ≤ m + 1 := by simp
        have hcap : caprem oper (m + 1) (b :: rest) = caprem [] m rest := by
          simp [caprem, hw]
        by_cases hle : (f :: fs).length ≤ m + 1
        · rw [if_pos hle, if_pos (by simpa [hlen] using hle)]
          simp [prependHead]
        · rw [if_neg hle, if_neg (by simpa [hlen] using hle)]
          rw [hcap]
          simp [prependHead, List.take_cons]
    · have hspc : splitBytes wsByte (b :: rest) = (b :: f) :: fs := by
        rw [splitBytes, hsp]
        exact if_neg hw
      rw [operandsGo, if_neg hw, hspc]
      rw [ih opers (oper ++ [b]) n h, hsp]
      have hpre : prependHead oper ((b :: f) :: fs) =
          prependHead (oper ++ [b]) (f :: fs) := by
        show (oper ++ (b :: f)) :: fs = ((oper ++ [b]) ++ f) :: fs
        rw [List.append_cons]
      have hcap : caprem oper n (b :: rest) = caprem (oper ++ [b]) n rest := by
        cases n <;> simp [caprem, hw]
      rw [hpre, hcap]
      simp

/-- C4 (amended): for every byte string and every `max ≥ 1`, `operands`
splits on the whitespace bytes SP, TAB, VT and FF, but does not collapse
consecutive whitespace: every whitespace byte terminates the current field
(so runs of whitespace yield empty fields, and leading whitespace an empty
first field); at most `max` fields are produced; and once `max - 1` fields
are complete, the next whitespace byte ends the split, the final field being
the accumulated bytes together with all remaining input bytes from that
whitespace byte on, verbatim (`caprem [] (max - 1) data`). -/
theorem operands_spec (data : List Nat) (max : Nat) (h : 1 ≤ max) :
    (operands data max =
      (if (splitBytes wsByte data).length ≤ max then splitBytes wsByte data
       else (splitBytes wsByte data).take (max - 1)
          ++ [caprem [] (max - 1) data])) ∧
    (operands data max).length ≤ max := by
  obtain ⟨m, rfl⟩ : ∃ m, max = m + 1 := ⟨max - 1, by omega⟩
  have h0 := operandsGo_eq (m + 1) data [] [] m (by simp)
  rw [operands] at *
  rcases hsp : splitBytes wsByte data with _ | ⟨f, fs⟩
  · exact absurd hsp (splitBytes_ne_nil _ _)
  rw [hsp] at h0
  rw [prependHead_nil _ (by simp)] at h0
  simp only [List.nil_append] at h0
  constructor
  · rw [h0]
    simp only [Nat.add_sub_cancel]
  · rw [h0]
    by_cases hle : (f :: fs).length ≤ m + 1
    · rw [if_pos hle]
      exact hle
    · rw [if_neg hle]
      have : ((f :: fs).take m).length ≤ m := by
        simp [List.length_take]
      simp only [List.length_append, List.length_cons, List.length_nil]
      omega

/-- Witness for C4: on `a<SP><SP>b` with `max = 2` the field count exceeds
the cap, so the result is the first field `a` followed by the verbatim
remainder `<SP>b` (the second whitespace byte is not collapsed away). -/
theorem operands_spec_witness :
    operands [97, 32, 32, 98] 2 = [[97], [32, 98]] ∧
    (operands [97, 32, 32, 98] 2).length ≤ 2 := by
  have h := operands_spec [97, 32, 32, 98] 2 (by decide)
  exact ⟨h.1.trans (by decide), h.2⟩

theorem receiveControlFileLoop_ok (decodeOk : List Nat → Bool) :
    ∀ (data line : List Nat) (us : List (List Nat)),
      receiveControlFileLoop decodeOk line data = Except.ok us →
      us = (prependHead line (splitBytes nlByte data)).dropLast ∧
      (prependHead line (splitBytes nlByte data)).getLast? = some [] := by
  intro data
  induction data with
  | nil =>
    intro line us h
    rw [receiveControlFileLoop] at h
    by_cases hl : line.length > 0
    · rw [if_pos hl] at h
      exact absurd h (by simp)
    · rw [if_neg hl] at h
      have hline : line = [] := List.length_eq_zero.mp (by omega)
      have hus : us = [] := (Except.ok.inj h).symm
      subst hline
      subst hus
      simp [splitBytes, prependHead]
  | cons b rest ih =>
    intro line us h
    rw [receiveControlFileLoop] at h
    rcases hsp : splitBytes nlByte rest with _ | ⟨f, fs⟩
    · exact absurd hsp (splitBytes_ne_nil _ _)
    by_cases hb : nlByte b
    · rw [if_pos hb] at h
      have hspc : splitBytes nlByte (b :: rest) = [] :: f :: fs := by
        rw [splitBytes, hsp]
        exact if_pos hb
      cases hp : parseControlFileLine decodeOk line with
      | error e => simp [hp] at h
      | ok u =>
        simp only [hp] at h
        cases hr : receiveControlFileLoop decodeOk [] rest with
        | error e => simp [hr] at h
        | ok us' =>
          simp only [hr] at h
          have hus : us = line :: us' := (Except.ok.inj h).symm
          obtain ⟨h1, h2⟩ := ih [] us' hr
          rw [hsp, prependHead_nil _ (by simp)] at h1 h2
          rw [hspc]
          have hpre : prependHead line ([] :: f :: fs) = line :: f :: fs := by
            show (line ++ []) :: f :: fs = line :: f :: fs
            rw [List.append_nil]
          rw [hpre]
          constructor
          · rw [hus, h1]
            rfl
          · rw [List.getLast?_cons_cons]
            exact h2
    · rw [if_neg hb] at h
      have hspc : splitBytes nlByte (b :: rest) = (b :: f) :: fs := by
        rw [splitBytes, hsp]
        exact if_neg hb
      obtain ⟨h1, h2⟩ := ih (line ++ [b]) us h
      rw [hsp] at h1 h2
      rw [hspc]
      have hpre : prependHead line ((b :: f) :: fs) =
          prependHead (line ++ [b]) (f :: fs) := by
        show (line ++ (b :: f)) :: fs = ((line ++ [b]) ++ f) :: fs
        rw [List.append_cons]
      rw [hpre]
      exact ⟨h1, h2⟩

theorem receiveControlFileLoop_garbage (decodeOk : List Nat → Bool)
    (data line g : List Nat)
    (h2 : (prependHead line (splitBytes nlByte data)).getLast? = some g)
    (hg : g ≠ []) :
    ∃ e, receiveControlFileLoop decodeOk line data = Except.error e := by
  cases hres : receiveControlFileLoop decodeOk line data with
  | error e => exact ⟨e, rfl⟩
  | ok us =>
    obtain ⟨_, hlast⟩ := receiveControlFileLoop_ok decodeOk data line us hres
    exact absurd (Option.some.inj (h2.symm.trans hlast)) hg

/-- C3: control-file ingestion with declared size `size` consumes exactly
`size + 1` bytes of the stream (the result depends only on that prefix); it
fails with the not-NUL-terminated error whenever the last of those bytes is
not 0x00; it fails whenever non-empty bytes remain after the last LF of the
first `size` bytes (either through the garbage-at-end error or through an
error on an earlier line); and on success the dispatched lines are exactly
the LF-terminated lines of the first `size` bytes. -/
theorem receiveControlFile_spec (decodeOk : List Nat → Bool) (size : Nat)
    (input : List Nat) :
    (receiveControlFile decodeOk size input =
        receiveControlFile decodeOk size (input.take (size + 1))) ∧
    (∀ b, size + 1 ≤ input.length →
        (input.take (size + 1)).getLast? = some b → b ≠ 0 →
        receiveControlFile decodeOk size input =
          Except.error CtrlError.notNulTerminated) ∧
    (∀ g, size + 1 ≤ input.length →
        (splitBytes nlByte (input.take (size + 1)).dropLast).getLast? =
          some g → g ≠ [] →
        ∃ e, receiveControlFile decodeOk size input = Except.error e) ∧
    (∀ us, receiveControlFile decodeOk size input = Except.ok us →
        us = (splitBytes nlByte (input.take (size + 1)).dropLast).dropLast) := by
  refine ⟨?_, ?_, ?_, ?_⟩
  · by_cases hlen : input.length < size + 1
    · have hlen2 : (input.take (size + 1)).length < size + 1 := by
        rw [List.length_take]
        omega
      rw [receiveControlFile, if_pos hlen, receiveControlFile, if_pos hlen2]
    · have hlen2 : ¬(input.take (size + 1)).length < size + 1 := by
        rw [List.length_take]
        omega
      rw [receiveControlFile, receiveControlFile, if_neg hlen, if_neg hlen2,
        List.take_take, Nat.min_self]
  · intro b hlen hlast hb
    rw [receiveControlFile, if_neg (by omega)]
    simp only [hlast]
    rw [if_pos hb]
  · intro g hlen hlast hg
    rw [receiveControlFile, if_neg (by omega)]
    cases hb : (input.take (size + 1)).getLast? with
    | none => exact ⟨CtrlError.readFailed, rfl⟩
    | some lastByte =>
      dsimp only
      by_cases h0 : lastByte ≠ 0
      · exact ⟨CtrlError.notNulTerminated, by rw [if_pos h0]⟩
      · rw [if_neg h0]
        have hpre : (prependHead []
            (splitBytes nlByte (input.take (size + 1)).dropLast)).getLast? =
              some g := by
          rw [prependHead_nil _ (splitBytes_ne_nil _ _)]
          exact hlast
        exact receiveControlFileLoop_garbage decodeOk _ [] g hpre hg
  · intro us h
    rw [receiveControlFile] at h
    by_cases hlen : input.length < size + 1
    · rw [if_pos hlen] at h
      exact absurd h (by simp)
    · rw [if_neg hlen] at h
      cases hb : (input.take (size + 1)).getLast? with
      | none =>
        rw [hb] at h
        exact absurd h (by simp)
      | some lastByte =>
        rw [hb] at h
        dsimp only at h
        by_cases h0 : lastByte ≠ 0
        · rw [if_pos h0] at h
          exact absurd h (by simp)
        · rw [if_neg h0] at h
          obtain ⟨h1, _⟩ := receiveControlFileLoop_ok decodeOk _ [] us h
          rw [prependHead_nil _ (splitBytes_ne_nil _ _)] at h1
          exact h1

/-- Witness for C3: declared size 3, stream `H i LF NUL` followed by an extra
byte the read must not consume; ingestion succeeds and dispatches exactly the
line `Hi`. -/
theorem receiveControlFile_spec_witness :
    [[72, 105]] =
      (splitBytes nlByte (([72, 105, 10, 0, 9].take 4).dropLast)).dropLast :=
  (receiveControlFile_spec (fun _ => true) 3 [72, 105, 10, 0, 9]).2.2.2
    [[72, 105]] rfl

theorem receiveDataFileLoop_filesize :
    ∀ (events : List ReadEvent) (s : DataFileState),
      ((receiveDataFileLoop s events).state).filesize = s.filesize := by
  intro events
  induction events with
  | nil => intro s; rfl
  | cons ev rest ih =>
    intro s
    cases ev with
    | chunk d =>
      simp only [receiveDataFileLoop]
      by_cases hend : (addToFile s.filesize s.processed d).2.1 = true
      · rw [if_pos hend]
        rfl
      · rw [if_neg hend]
        exact ih _
    | eofRead =>
      simp only [receiveDataFileLoop]
      split <;> rfl
    | errRead => rfl

theorem receiveDataFileLoop_append :
    ∀ (xs : List ReadEvent) (s s' : DataFileState) (ys : List ReadEvent),
      receiveDataFileLoop s xs = DataFileOutcome.pending s' →
      receiveDataFileLoop s (xs ++ ys) = receiveDataFileLoop s' ys := by
  intro xs
  induction xs with
  | nil =>
    intro s s' ys h
    injection h with h1
    subst h1
    rfl
  | cons ev rest ih =>
    intro s s' ys h
    cases ev with
    | chunk d =>
      simp only [receiveDataFileLoop] at h
      rw [List.cons_append]
      simp only [receiveDataFileLoop]
      by_cases hend : (addToFile s.filesize s.processed d).2.1 = true
      · rw [if_pos hend] at h
        simp at h
      · rw [if_neg hend] at h
        rw [if_neg hend]
        exact ih _ s' ys h
    | eofRead =>
      simp only [receiveDataFileLoop] at h
      split at h <;> simp at h
    | errRead =>
      simp only [receiveDataFileLoop] at h
      simp at h

/-- C5: data-file reception never modifies the declared file size (in every
outcome of every read trace the state's filesize is the declared size, with
no clamping above 2 GiB), and a read returning EOF while the loop is still
receiving ends the transfer successfully iff the declared size is 0 or
greater than 2 GiB, and fails it for every other declared size. -/
theorem receiveDataFile_spec (declared : Nat) (events : List ReadEvent) :
    ((receiveDataFile declared events).state).filesize = declared ∧
    (∀ pre rest s',
        receiveDataFileLoop ⟨declared, 0, []⟩ pre = DataFileOutcome.pending s' →
        receiveDataFile declared (pre ++ ReadEvent.eofRead :: rest) =
          (if declared = 0 ∨ twoGiB < declared then DataFileOutcome.done s'
           else DataFileOutcome.failed s')) := by
  constructor
  · exact receiveDataFileLoop_filesize events ⟨declared, 0, []⟩
  · intro pre rest s' hpend
    have hfs : s'.filesize = declared := by
      have hh := receiveDataFileLoop_filesize pre ⟨declared, 0, []⟩
      rw [hpend] at hh
      exact hh
    rw [receiveDataFile, receiveDataFileLoop_append pre _ s' _ hpend]
    rw [receiveDataFileLoop, hfs]

/-- Witness for C5: declared size 5, one chunk `[1, 2]` then EOF; since the
declared size is neither 0 nor above 2 GiB, the EOF fails the transfer, with
the filesize still 5 and two bytes written. -/
theorem receiveDataFile_spec_witness :
    receiveDataFile 5 [ReadEvent.chunk [1, 2], ReadEvent.eofRead] =
      DataFileOutcome.failed ⟨5, 2, [1, 2]⟩ := by
  have h := (receiveDataFile_spec 5
      [ReadEvent.chunk [1, 2], ReadEvent.eofRead]).2
      [ReadEvent.chunk [1, 2]] [] ⟨5, 2, [1, 2]⟩ (by decide)
  rw [if_neg (by decide)] at h
  exact h

end LprLib
